import Mathlib

/-!
Verification of the chapter-segmentation core of `ms_analyzer.py`.

The Python source is shallowly embedded below:

* `count_words`, `split_chapters`, `get_chapter_start_pages` and the
  per-chapter aggregation loop of `analyze` are translated one by one.
* Python strings are Lean `String`s; the handful of string methods the
  source uses (`strip`, `splitlines`, `lower`, `upper`, `in`) are given
  executable models over the character list (`String.data`).  The models
  cover the ASCII behaviour of those methods, which is the only behaviour
  exercised by the analyzed page texts: `strip` removes the ASCII
  whitespace characters, `splitlines` splits at `\n`, `\r\n` and `\r`
  (dropping a final empty piece exactly as Python does), `lower`/`upper`
  use `Char.toLower`/`Char.toUpper`.
* The two regexes of `split_chapters` are anchored `match`es; their
  backtracking behaviour on the given patterns reduces to the
  first-match/maximal-run forms implemented below (`\w` is modelled as
  ASCII `[A-Za-z0-9_]`, `\s` as ASCII whitespace, `[a-z]` under
  `re.IGNORECASE` as the ASCII letters).
* A page list element that is not a string (`isinstance(page_text, str)`
  fails) is the constructor `PageEntry.nonStr`.
-/

/-- An element of the `pages` list handed to `split_chapters`: either a
Python string or some non-string object (the code only ever asks
`isinstance(page_text, str)`). -/
inductive PageEntry where
  | str (s : String)
  | nonStr
deriving DecidableEq

/-- Python ASCII whitespace, as stripped by `str.strip()` and matched by the
`\s` class of the patterns (space, tab, newline, carriage return, vertical
tab, form feed). -/
def pyWS (c : Char) : Bool :=
  c = ' ' || c = '\t' || c = '\n' || c = '\r' || c = '\x0b' || c = '\x0c'

/-- `str.strip()` on the character list: drop whitespace from both ends. -/
def pyStripChars (cs : List Char) : List Char :=
  ((cs.dropWhile pyWS).reverse.dropWhile pyWS).reverse

/-- Python `s.strip()`. -/
def pyStrip (s : String) : String := String.mk (pyStripChars s.data)

/-- Python `s.lower()` (ASCII case folding; the analyzed texts are ASCII). -/
def lowerStr (s : String) : String := String.mk (s.data.map Char.toLower)

/-- Python `s.upper()` (ASCII case folding; the analyzed texts are ASCII). -/
def upperStr (s : String) : String := String.mk (s.data.map Char.toUpper)

/-- Worker for `splitlines`: cut the character stream at `\n`, `\r\n` or
`\r`, accumulating the current line in reverse.  The flag records that the
previous character was a `\r` at which a break was already emitted, so the
`\n` of a `\r\n` pair is swallowed. -/
def slGo : List Char → List Char → Bool → List String
  | [], cur, _ => [String.mk cur.reverse]
  | c :: rest, cur, prevCR =>
    if c = '\n' then
      if prevCR then slGo rest cur false
      else String.mk cur.reverse :: slGo rest [] false
    else if c = '\r' then String.mk cur.reverse :: slGo rest [] true
    else slGo rest (c :: cur) false

/-- Python `s.splitlines()`: `""` gives `[]`, and a final line terminator
does not produce a trailing empty line. -/
def splitlines (s : String) : List String :=
  match s.data with
  | [] => []
  | cs =>
    let parts := slGo cs [] false
    match cs.getLast? with
    | some c => if c = '\n' || c = '\r' then parts.dropLast else parts
    | none => parts

/-- Python's `\w` on ASCII input: letters, digits and underscore. -/
def isWordChar (c : Char) : Bool := c.isAlphanum || c = '_'

/-- The word boundary `\b` placed after a word character: it holds at end of
input or before a non-word character. -/
def boundaryOk : List Char → Bool
  | [] => true
  | c :: _ => !isWordChar c

/-- The ASCII letters, i.e. `[a-z]` under `re.IGNORECASE` once the input has
been lowercased. -/
def isLowerAZ (c : Char) : Bool := 'a' ≤ c && c ≤ 'z'

/-- Anchored literal keyword match: if `kw` is a prefix of `cs`, return the
remainder. -/
def dropKw : List Char → List Char → Option (List Char)
  | [], cs => some cs
  | _ :: _, [] => none
  | k :: ks, c :: cs => if c = k then dropKw ks cs else none

/-- `(?:\d+|[a-z]+|[ivxlcdm]+)\b` on a lowercased tail: a maximal digit run
or a maximal letter run followed by a word boundary.  (Under the boundary
requirement the roman-numeral alternative `[ivxlcdm]+` can never succeed
where `[a-z]+` fails, since any shorter roman run is followed by a letter.) -/
def numTokenOk (cs : List Char) : Bool :=
  match cs with
  | [] => false
  | c :: _ =>
    if c.isDigit then boundaryOk (cs.dropWhile Char.isDigit)
    else if isLowerAZ c then boundaryOk (cs.dropWhile isLowerAZ)
    else false

/-- After the `chapter`/`book` keyword: `\s+` then the numeral token.  `\s+`
being greedy is equivalent to dropping the maximal whitespace run, because
the token alternatives start with non-whitespace. -/
def chapterTailOk (rest : List Char) : Bool :=
  match rest with
  | [] => false
  | c :: _ => pyWS c && numTokenOk (rest.dropWhile pyWS)

/-- `chapter_regex.match(clean_line)`:
`^(?:chapter|book)\s+(?:\d+|[a-z]+|[ivxlcdm]+)\b.*` with `re.IGNORECASE`,
applied to the lowercased characters of the line.  (`.*` always succeeds on
the remainder of a single line.) -/
def chapterHeadMatch (low : List Char) : Bool :=
  match dropKw "chapter".data low with
  | some rest => chapterTailOk rest
  | none =>
    match dropKw "book".data low with
    | some rest => chapterTailOk rest
    | none => false

/-- `^kw\b` for one lowercased keyword spelling. -/
def kwMatch (kw : String) (low : List Char) : Bool :=
  match dropKw kw.data low with
  | some rest => boundaryOk rest
  | none => false

/-- The `section_patterns` dict of `split_chapters`, in insertion order.
Each label carries the keyword spellings its pattern accepts
(`acknowledg(e)?ments` accepts two). -/
def sectionTests : List (String × List String) :=
  [("Prologue", ["prologue"]),
   ("Epilogue", ["epilogue"]),
   ("Acknowledgements", ["acknowledgements", "acknowledgments"]),
   ("Dedication", ["dedication"]),
   ("Character List", ["character list"]),
   ("About the Author", ["about the author"]),
   ("Also by the Author", ["also by the author"]),
   ("Thank You", ["thank you"])]

/-- The inner `for label, regex in section_patterns.items()` loop: first
label (in dict order) whose pattern matches the lowercased line. -/
def sectionFind (low : List Char) : Option String :=
  sectionTests.findSome? fun p =>
    if p.2.any (fun kw => kwMatch kw low) then some p.1 else none

/-- Result of classifying one stripped line. -/
inductive HeadingMatch where
  | chapterHeading (rawTitle : String)
  | namedSection (label : String)
deriving DecidableEq

/-- The per-line classification performed by the body of the line loop of
`split_chapters`: the chapter pattern is tried first; only if it fails are
the named-section patterns tried, in dict order.  A chapter heading records
the stripped line itself (`current_title = clean_line`), a named section
records the fixed label. -/
def classifyLine (cleanLine : String) : Option HeadingMatch :=
  let low := (lowerStr cleanLine).data
  if chapterHeadMatch low then some (.chapterHeading cleanLine)
  else
    match sectionFind low with
    | some label => some (.namedSection label)
    | none => none

/-- The title stored for a match: the raw stripped line for a chapter
heading, the fixed label for a named section. -/
def titleOf : HeadingMatch → String
  | .chapterHeading s => s
  | .namedSection l => l

/-- Scanning the lines of one page: the first line whose stripped form
matches stops the scan (`break` after `matched = True`). -/
def pageFirstMatch (t : String) : Option HeadingMatch :=
  (splitlines t).findSome? fun l => classifyLine (pyStrip l)

/-- Whether a page triggers a chapter boundary. -/
def pageHasHeading : PageEntry → Bool
  | .str t => (pageFirstMatch t).isSome
  | .nonStr => false

/-- One chapter tuple `(current_title, current_start, end, current_chapter)`
appended to `chapters`.  `title`/`startPage` are `Option`s because the
Python variables start out as `None`; `endPage` is `Int` because the Python
value is the plain integer `i - 1` (or `len(pages) - 1`). -/
structure Chapter where
  title : Option String
  startPage : Option Nat
  endPage : Int
  pages : List (Nat × String)
deriving DecidableEq

/-- The mutable state of the scan in `split_chapters`. -/
structure SplitSt where
  chapters : List Chapter
  current_title : Option String
  current_start : Option Nat
  current_chapter : List (Nat × String)
deriving DecidableEq

/-- Initial state: `chapters = []`, `current_chapter = []`,
`current_title = None`, `current_start = None`.  Note `current_chapter`
starts as the empty list, not `None`, so the `is not None` test in the loop
is always true. -/
def initSt : SplitSt := ⟨[], none, none, []⟩

/-- The body of `for i, page_text in enumerate(pages)`.  A non-string page
is skipped by `continue`.  On the first matching line the open chapter (if
`current_chapter` is non-empty) is closed with end page `i - 1` and a new
one is opened seeded with the current page; otherwise the page is appended
to `current_chapter` (the `is not None` guard always holds). -/
def stepPage (i : Nat) (e : PageEntry) (st : SplitSt) : SplitSt :=
  match e with
  | .nonStr => st
  | .str t =>
    match pageFirstMatch t with
    | some hm =>
      ⟨(if st.current_chapter.isEmpty then st.chapters
        else st.chapters ++
          [⟨st.current_title, st.current_start, (i : Int) - 1, st.current_chapter⟩]),
       some (titleOf hm), some i, [(i, t)]⟩
    | none =>
      ⟨st.chapters, st.current_title, st.current_start,
       st.current_chapter ++ [(i, t)]⟩

/-- The page loop, carrying the index of the next page. -/
def splitGo (st : SplitSt) (i : Nat) : List PageEntry → SplitSt
  | [] => st
  | e :: rest => splitGo (stepPage i e st) (i + 1) rest

/-- The final `if current_chapter:` block: close the open chapter with end
page `len(pages) - 1`. -/
def closeFinal (len : Nat) (st : SplitSt) : List Chapter :=
  if st.current_chapter.isEmpty then st.chapters
  else st.chapters ++
    [⟨st.current_title, st.current_start, (len : Int) - 1, st.current_chapter⟩]

/-- The state after the whole page loop of `split_chapters`. -/
def finalSt (pages : List PageEntry) : SplitSt := splitGo initSt 0 pages

/-- `split_chapters(pages)`. -/
def split_chapters (pages : List PageEntry) : List Chapter :=
  closeFinal pages.length (finalSt pages)

/-- Index (from `i`) of the first remaining page with a heading. -/
def fhpGo (i : Nat) : List PageEntry → Option Nat
  | [] => none
  | e :: rest => if pageHasHeading e then some i else fhpGo (i + 1) rest

/-- Index of the first page of the document on which a heading line is
detected, if any. -/
def firstHeadingPage (pages : List PageEntry) : Option Nat := fhpGo 0 pages

/-- The heading match produced by page `j` of the document, if any. -/
def headingOfPage (pages : List PageEntry) (j : Nat) : Option HeadingMatch :=
  match pages[j]? with
  | some (.str t) => pageFirstMatch t
  | _ => none

/-! ### The aggregation loop of `analyze` -/

/-- `count_words(text)`: `len(re.findall(r'\b\w+\b', text))`, i.e. the
number of maximal runs of word characters.  The flag says whether the
previous character was a word character. -/
def cwGo : List Char → Bool → Nat
  | [], _ => 0
  | c :: cs, prevW =>
    (if isWordChar c && !prevW then 1 else 0) + cwGo cs (isWordChar c)

/-- `count_words(text)`. -/
def count_words (text : String) : Nat := cwGo text.data false

/-- `"\n".join(...)` over the page texts of one chapter (every entry of
`content` is a non-empty `(index, text)` tuple, so the generator's
`if entry and isinstance(entry, tuple)` filter keeps all of them). -/
def joinTexts : List (Nat × String) → String
  | [] => ""
  | [(_, t)] => t
  | (_, t) :: rest => t ++ "\n" ++ joinTexts rest

/-- A value of one of the page fields of a chapter record: a number, or the
placeholder `"?"` substituted by the `except` handler. -/
inductive StatVal where
  | num (n : Int)
  | q
deriving DecidableEq

/-- One row of `chapter_data`. -/
structure ChapterStat where
  chapter : Nat
  title : Option String
  start_page : StatVal
  end_page : StatVal
  page_count : StatVal
  word_count : Nat
deriving DecidableEq

/-- The `try`/`except` body of the chapter loop of `analyze` for the chapter
in position `i` (1-based).  When `startPage` is a page index the `try`
block succeeds and reports 1-based page numbers, `page_count =
end_page - start_page + 1` and the word count of the joined texts.  When
`startPage` is `None` (the pseudo-chapter collecting pages before the first
heading), Python raises `TypeError` at `end_page - start_page`, and the
`except` branch records `"?"` for the page fields and `0` words. -/
def aggregate (i : Nat) (c : Chapter) : ChapterStat :=
  match c.startPage with
  | some s =>
    ⟨i, c.title, .num ((s : Int) + 1), .num (c.endPage + 1),
     .num (c.endPage - (s : Int) + 1), count_words (joinTexts c.pages)⟩
  | none => ⟨i, c.title, .q, .q, .q, 0⟩

/-- `enumerate(chapters, start=1)` mapped through the loop body. -/
def numberFrom (i : Nat) : List Chapter → List ChapterStat
  | [] => []
  | c :: rest => aggregate i c :: numberFrom (i + 1) rest

/-- The pure tail of `analyze(...)` after text extraction: segmentation,
per-chapter aggregation, and the summary `{"chapter_count": len(...)}`.
(The PDF download/extraction front end is outside the embedded core.) -/
def analyze_stats (pages : List PageEntry) : Nat × List ChapterStat :=
  let chapter_data := numberFrom 1 (split_chapters pages)
  (chapter_data.length, chapter_data)

/-! ### `get_chapter_start_pages`

The function receives `chapters` and only ever inspects `chapter[0]`:

    first_entry = chapter[0]
    if isinstance(first_entry, tuple):
        page_index, page_text = first_entry
        possible_title = page_text.strip().splitlines()[0].strip().upper()
    else:
        continue

An element of the `chapters` argument is therefore modelled by what
indexing it at 0 yields: `[0]` on an empty sequence raises `IndexError`;
otherwise the first element either is a `(page_index, page_text)` pair or
is not a tuple.  A chapter produced by `split_chapters` is the 4-tuple
`(current_title, current_start, end, current_chapter)`, so its `[0]` is
`current_title` — a string or `None`, never a tuple
(`Chapter.asResolverArg` below). -/

/-- One element of the `chapters` argument of `get_chapter_start_pages`,
reduced to what the function observes about it. -/
inductive RChapter where
  | empty
  | headTup (pageIndex : Int) (pageText : String)
  | headNonTup
deriving DecidableEq

/-- The uncaught Python exceptions the resolver can raise. -/
inductive ResolverErr where
  | indexError
deriving DecidableEq

/-- `chapter[0]` of a `split_chapters` chapter is its title (a string or
`None`), which is never a tuple, so the `isinstance` guard always sends the
loop to `continue`. -/
def Chapter.asResolverArg (_ : Chapter) : RChapter := .headNonTup

/-- Is `needle` a prefix of `hay`? -/
def hasPref : List Char → List Char → Bool
  | [], _ => true
  | _ :: _, [] => false
  | a :: as, b :: bs => a = b && hasPref as bs

/-- Python's substring test `needle in hay`. -/
def containsSub (needle : List Char) : List Char → Bool
  | [] => hasPref needle []
  | hay@(_ :: t) => hasPref needle hay || containsSub needle t

/-- The inner `for i, page in enumerate(pages)` / `else` of the resolver:
1-based number of the first page whose uppercased text contains the title,
`None` when the loop falls through to its `else`. -/
def findTitlePage (title : String) : Nat → List String → Option Nat
  | _, [] => none
  | i, p :: rest =>
    if containsSub title.data (upperStr p).data then some (i + 1)
    else findTitlePage title (i + 1) rest

/-- `start_pages[key] = v` on a Python dict: overwrite in place if the key
exists, else append. -/
def dictUpdate (d : List (String × Option Nat)) (k : String) (v : Option Nat) :
    List (String × Option Nat) :=
  if d.any (fun p => p.1 = k) then d.map (fun p => if p.1 = k then (k, v) else p)
  else d ++ [(k, v)]

/-- `get_chapter_start_pages(chapters, pages)`.  The fold threads the dict;
an uncaught `IndexError` (from `chapter[0]` on an empty chapter, or from
`[0]` on the empty `splitlines()` of a whitespace-only first page text)
aborts the whole run. -/
def get_chapter_start_pages (chapters : List RChapter) (pages : List String) :
    Except ResolverErr (List (String × Option Nat)) :=
  chapters.foldl
    (fun acc ch =>
      match acc with
      | .error e => .error e
      | .ok d =>
        match ch with
        | .empty => .error .indexError
        | .headNonTup => .ok d
        | .headTup _ text =>
          match splitlines (pyStrip text) with
          | [] => .error .indexError
          | l0 :: _ =>
            let t := upperStr (pyStrip l0)
            .ok (dictUpdate d t (findTitlePage t 0 pages)))
    (.ok [])

/-! ### Invariant of the segmentation scan -/

/-- Relation between consecutive chapters of the output: the later one has
a defined start page strictly beyond the earlier one's end page. -/
def chRel (a b : Chapter) : Prop :=
  ∃ s, b.startPage = some s ∧ a.endPage < (s : Int)

/-- Invariant of the scan state of `split_chapters` over `ps` after the
first `n` pages have been consumed. -/
structure SInv (ps : List PageEntry) (n : Nat) (st : SplitSt) : Prop where
  hcc0 : st.current_chapter = [] →
    st.chapters = [] ∧ st.current_title = none ∧ st.current_start = none
  hsn : st.current_start = none → st.chapters = [] ∧ st.current_title = none
  hs : ∀ s, st.current_start = some s →
    s < n ∧ ∃ hm, headingOfPage ps s = some hm ∧ st.current_title = some (titleOf hm)
  hlast : ∀ s, st.current_start = some s →
    ∀ c, st.chapters.getLast? = some c → c.endPage < (s : Int)
  hchain : List.Chain' chRel st.chapters
  hle : ∀ c ∈ st.chapters, ∀ s, c.startPage = some s → (s : Int) ≤ c.endPage
  hbound : ∀ j, j < n → ∀ hm, headingOfPage ps j = some hm →
    (∃ c ∈ st.chapters, c.startPage = some j ∧ c.title = some (titleOf hm)) ∨
    (st.current_start = some j ∧ st.current_title = some (titleOf hm))
  hchs : ∀ c ∈ st.chapters, ∀ s, c.startPage = some s →
    ∃ hm, headingOfPage ps s = some hm ∧ c.title = some (titleOf hm)
  hpg : ∀ c ∈ st.chapters, ∀ p ∈ c.pages,
    ps[p.1]? = some (PageEntry.str p.2) ∧ ∀ s, c.startPage = some s → s ≤ p.1
  hcc : ∀ p ∈ st.current_chapter,
    ps[p.1]? = some (PageEntry.str p.2) ∧ p.1 < n ∧
      ∀ s, st.current_start = some s → s ≤ p.1
  hcount : st.chapters.countP (fun c => c.startPage.isSome) +
    (if st.current_start.isSome then 1 else 0) = (ps.take n).countP pageHasHeading
  hlen : st.chapters.length ≤ (ps.take n).countP pageHasHeading
  hnone1 : ∀ c ∈ st.chapters, c.startPage = none → c.title = none
  hallnon : st.current_chapter = [] → ∀ j, j < n → ps[j]? = some PageEntry.nonStr
  hstr : (∀ j, j < n → ps[j]? = some PageEntry.nonStr) → st.current_chapter = []

example : count_words "Hello, world!" = 2 := by decide

example : count_words "" = 0 := by decide

example : analyze_stats [.str "intro", .str "Chapter 1\nHello world"] =
    (2, [⟨1, none, .q, .q, .q, 0⟩,
         ⟨2, some "Chapter 1", .num 2, .num 2, .num 1, 4⟩]) := by decide

example : get_chapter_start_pages
    ((split_chapters [.str "Chapter 1\nHello"]).map Chapter.asResolverArg)
    ["Chapter 1\nHello"] = .ok [] := rfl

example : get_chapter_start_pages [.headTup 0 " \n "] ["x"] =
    .error .indexError := rfl

example : get_chapter_start_pages [.headTup 0 "The Title\nbody"] ["intro", "THE TITLE here"] =
    .ok [("THE TITLE", some 2)] := rfl

example : split_chapters [.str "Chapter One\nText A", .str "More text",
    .str "Chapter Two\nText B"] =
    [⟨some "Chapter One", some 0, 1, [(0, "Chapter One\nText A"), (1, "More text")]⟩,
     ⟨some "Chapter Two", some 2, 2, [(2, "Chapter Two\nText B")]⟩] := by decide

example : split_chapters [.str "intro", .str "Chapter 1"] =
    [⟨none, none, 0, [(0, "intro")]⟩,
     ⟨some "Chapter 1", some 1, 1, [(1, "Chapter 1")]⟩] := by decide

example : split_chapters [.str "Chapter 1", .nonStr] =
    [⟨some "Chapter 1", some 0, 1, [(0, "Chapter 1")]⟩] := by decide

example : split_chapters [.str "PROLOGUE\nonce upon"] =
    [⟨some "Prologue", some 0, 0, [(0, "PROLOGUE\nonce upon")]⟩] := by decide

example : split_chapters [.nonStr, .nonStr] = [] := by decide

/-- The initial state satisfies the invariant. -/
theorem sinv_init (ps : List PageEntry) : SInv ps 0 initSt where
  hcc0 _ := ⟨rfl, rfl, rfl⟩
  hsn _ := ⟨rfl, rfl⟩
  hs s h := by simp [initSt] at h
  hlast s h := by simp [initSt] at h
  hchain := List.chain'_nil
  hle c hc := by simp [initSt] at hc
  hbound j hj := by omega
  hchs c hc := by simp [initSt] at hc
  hpg c hc := by simp [initSt] at hc
  hcc p hp := by simp [initSt] at hp
  hcount := by simp [initSt]
  hlen := by simp [initSt]
  hnone1 c hc := by simp [initSt] at hc
  hallnon _ j hj := by omega
  hstr _ := rfl

/-- Unfolding `stepPage` on a non-string page. -/
theorem stepPage_nonStr (i : Nat) (st : SplitSt) : stepPage i .nonStr st = st := rfl

/-- Unfolding `stepPage` on a string page without a heading. -/
theorem stepPage_nomatch (i : Nat) (t : String) (hpm : pageFirstMatch t = none)
    (chs : List Chapter) (ti : Option String) (sta : Option Nat) (cc : List (Nat × String)) :
    stepPage i (.str t) ⟨chs, ti, sta, cc⟩ = ⟨chs, ti, sta, cc ++ [(i, t)]⟩ := by
  simp [stepPage, hpm]

/-- Unfolding `stepPage` on a heading page when no chapter is open. -/
theorem stepPage_match_nil (i : Nat) (t : String) (hm : HeadingMatch)
    (hpm : pageFirstMatch t = some hm)
    (chs : List Chapter) (ti : Option String) (sta : Option Nat) :
    stepPage i (.str t) ⟨chs, ti, sta, []⟩ =
      ⟨chs, some (titleOf hm), some i, [(i, t)]⟩ := by
  simp [stepPage, hpm]

/-- Unfolding `stepPage` on a heading page while a chapter is open. -/
theorem stepPage_match_cons (i : Nat) (t : String) (hm : HeadingMatch)
    (hpm : pageFirstMatch t = some hm)
    (chs : List Chapter) (ti : Option String) (sta : Option Nat)
    (q : Nat × String) (cc' : List (Nat × String)) :
    stepPage i (.str t) ⟨chs, ti, sta, q :: cc'⟩ =
      ⟨chs ++ [⟨ti, sta, (i : Int) - 1, q :: cc'⟩],
       some (titleOf hm), some i, [(i, t)]⟩ := by
  simp [stepPage, hpm]

/-- One page of the scan preserves the invariant. -/
theorem SInv.step {ps : List PageEntry} {n : Nat} {st : SplitSt} {e : PageEntry}
    (he : ps[n]? = some e) (h : SInv ps n st) : SInv ps (n + 1) (stepPage n e st) := by
  have htake : (ps.take (n + 1)).countP pageHasHeading
      = (ps.take n).countP pageHasHeading + (if pageHasHeading e then 1 else 0) := by
    rw [List.take_succ, he, List.countP_append]
    simp [List.countP_cons]
  obtain ⟨chs, ti, sta, cc⟩ := st
  obtain ⟨hcc0, hsn, hs, hlast, hchain, hle, hbound, hchs, hpg, hcc, hcount,
    hlen, hnone1, hallnon, hstr⟩ := h
  dsimp only at hcc0 hsn hs hlast hchain hle hbound hchs hpg hcc hcount hlen hnone1 hallnon hstr
  cases e with
  | nonStr =>
    have hhop : headingOfPage ps n = none := by simp [headingOfPage, he]
    have htake0 : (ps.take (n + 1)).countP pageHasHeading
        = (ps.take n).countP pageHasHeading := by rw [htake]; rfl
    rw [stepPage_nonStr]
    refine ⟨hcc0, hsn, ?_, hlast, hchain, hle, ?_, hchs, hpg, ?_, ?_, ?_, hnone1, ?_, ?_⟩
    · intro s hsx
      obtain ⟨h1, h2⟩ := hs s hsx
      exact ⟨by omega, h2⟩
    · intro j hj hm hhm
      rcases Nat.lt_succ_iff_lt_or_eq.mp hj with hj' | rfl
      · exact hbound j hj' hm hhm
      · rw [hhop] at hhm; cases hhm
    · intro p hp
      obtain ⟨h1, h2, h3⟩ := hcc p hp
      exact ⟨h1, by omega, h3⟩
    · dsimp only
      rw [htake0]
      exact hcount
    · dsimp only
      rw [htake0]
      exact hlen
    · intro hccE j hj
      rcases Nat.lt_succ_iff_lt_or_eq.mp hj with hj' | rfl
      · exact hallnon hccE j hj'
      · exact he
    · intro hall
      exact hstr fun j hj => hall j (by omega)
  | str t =>
    have hhop : headingOfPage ps n = pageFirstMatch t := by simp [headingOfPage, he]
    cases hpm : pageFirstMatch t with
    | none =>
      have hph : pageHasHeading (PageEntry.str t) = false := by
        simp [pageHasHeading, hpm]
      have htake0 : (ps.take (n + 1)).countP pageHasHeading
          = (ps.take n).countP pageHasHeading := by rw [htake, hph]; rfl
      rw [stepPage_nomatch n t hpm]
      refine ⟨?_, hsn, ?_, hlast, hchain, hle, ?_, hchs, hpg, ?_, ?_, ?_, hnone1, ?_, ?_⟩
      · intro hx; simp at hx
      · intro s hsx
        obtain ⟨h1, h2⟩ := hs s hsx
        exact ⟨by omega, h2⟩
      · intro j hj hm hhm
        rcases Nat.lt_succ_iff_lt_or_eq.mp hj with hj' | rfl
        · exact hbound j hj' hm hhm
        · rw [hhop, hpm] at hhm; cases hhm
      · intro p hp
        rcases List.mem_append.mp hp with hp' | hp'
        · obtain ⟨h1, h2, h3⟩ := hcc p hp'
          exact ⟨h1, by omega, h3⟩
        · rcases List.mem_singleton.mp hp' with rfl
          refine ⟨he, by omega, ?_⟩
          intro s hsx
          have := (hs s hsx).1
          omega
      · dsimp only
        rw [htake0]
        exact hcount
      · dsimp only
        rw [htake0]
        exact hlen
      · intro hx; simp at hx
      · intro hall
        have := hall n (by omega)
        rw [he] at this
        cases this
    | some hm =>
      have hph : pageHasHeading (PageEntry.str t) = true := by
        simp [pageHasHeading, hpm]
      have htake1 : (ps.take (n + 1)).countP pageHasHeading
          = (ps.take n).countP pageHasHeading + 1 := by rw [htake, hph]; rfl
      cases cc with
      | nil =>
        obtain ⟨hchs0, hti0, hsta0⟩ := hcc0 rfl
        subst hchs0; subst hti0; subst hsta0
        rw [stepPage_match_nil n t hm hpm]
        refine ⟨?_, ?_, ?_, ?_, List.chain'_nil, ?_, ?_, ?_, ?_, ?_, ?_, ?_, ?_, ?_, ?_⟩
        · intro hx; simp at hx
        · intro hx; simp at hx
        · intro s hsx
          rcases Option.some_inj.mp hsx
          exact ⟨by omega, hm, by rw [hhop, hpm], rfl⟩
        · intro s _ c hcx
          simp at hcx
        · intro c hcx; simp at hcx
        · intro j hj hm' hhm
          rcases Nat.lt_succ_iff_lt_or_eq.mp hj with hj' | rfl
          · have hnn := hallnon rfl j hj'
            simp [headingOfPage, hnn] at hhm
          · rw [hhop, hpm] at hhm
            rcases Option.some_inj.mp hhm
            exact Or.inr ⟨rfl, rfl⟩
        · intro c hcx; simp at hcx
        · intro c hcx; simp at hcx
        · intro p hp
          rcases List.mem_singleton.mp hp with rfl
          exact ⟨he, by omega, fun s hsx => by rcases Option.some_inj.mp hsx; omega⟩
        · dsimp only
          show 0 + 1 = (ps.take (n + 1)).countP pageHasHeading
          rw [htake1]
          have h1 := hcount
          simp at h1
          omega
        · exact Nat.zero_le _
        · intro c hcx; simp at hcx
        · intro hx; simp at hx
        · intro hall
          have := hall n (by omega)
          rw [he] at this
          cases this
      | cons q cc' =>
        rw [stepPage_match_cons n t hm hpm]
        refine ⟨?_, ?_, ?_, ?_, ?_, ?_, ?_, ?_, ?_, ?_, ?_, ?_, ?_, ?_, ?_⟩
        · intro hx; simp at hx
        · intro hx; simp at hx
        · intro s hsx
          rcases Option.some_inj.mp hsx
          exact ⟨by omega, hm, by rw [hhop, hpm], rfl⟩
        · intro s hsx c hcx
          rcases Option.some_inj.mp hsx
          dsimp only at hcx
          rw [List.getLast?_concat] at hcx
          rcases Option.some_inj.mp hcx with rfl
          dsimp only
          omega
        · dsimp only
          refine List.chain'_append.mpr ⟨hchain, List.chain'_singleton _, ?_⟩
          intro x hx y hy
          simp only [List.head?_cons, Option.mem_def, Option.some_inj] at hy
          subst hy
          cases sta with
          | none =>
            have := (hsn rfl).1
            subst this
            simp at hx
          | some s =>
            exact ⟨s, rfl, hlast s rfl x (Option.mem_def.mp hx)⟩
        · intro c hcx s hsx
          dsimp only at hcx
          rcases List.mem_append.mp hcx with hc' | hc'
          · exact hle c hc' s hsx
          · rcases List.mem_singleton.mp hc' with rfl
            dsimp only at hsx ⊢
            have := (hs s hsx).1
            omega
        · intro j hj hm' hhm
          rcases Nat.lt_succ_iff_lt_or_eq.mp hj with hj' | rfl
          · rcases hbound j hj' hm' hhm with ⟨c, hc, h1, h2⟩ | ⟨h1, h2⟩
            · exact Or.inl ⟨c, List.mem_append_left _ hc, h1, h2⟩
            · exact Or.inl ⟨_, List.mem_append_right _ (List.mem_singleton_self _), h1, h2⟩
          · rw [hhop, hpm] at hhm
            rcases Option.some_inj.mp hhm
            exact Or.inr ⟨rfl, rfl⟩
        · intro c hcx s hsx
          dsimp only at hcx
          rcases List.mem_append.mp hcx with hc' | hc'
          · exact hchs c hc' s hsx
          · rcases List.mem_singleton.mp hc' with rfl
            dsimp only at hsx
            obtain ⟨_, hm', h1, h2⟩ := hs s hsx
            exact ⟨hm', h1, h2⟩
        · intro c hcx p hp
          rcases List.mem_append.mp hcx with hc' | hc'
          · exact hpg c hc' p hp
          · rcases List.mem_singleton.mp hc' with rfl
            dsimp only at hp
            obtain ⟨h1, _, h3⟩ := hcc p hp
            exact ⟨h1, h3⟩
        · intro p hp
          rcases List.mem_singleton.mp hp with rfl
          exact ⟨he, by omega, fun s hsx => by rcases Option.some_inj.mp hsx; omega⟩
        · dsimp only
          show List.countP (fun c => c.startPage.isSome)
              (chs ++ [⟨ti, sta, (n : Int) - 1, q :: cc'⟩]) + 1
            = (ps.take (n + 1)).countP pageHasHeading
          rw [htake1, List.countP_append]
          cases sta with
          | none =>
            have h1 := hcount
            simp at h1
            simp [List.countP_cons]
            omega
          | some s =>
            have h1 := hcount
            simp at h1
            simp [List.countP_cons]
            omega
        · dsimp only
          rw [htake1, List.length_append]
          simp only [List.length_singleton]
          omega
        · intro c hcx hnone
          dsimp only at hcx
          rcases List.mem_append.mp hcx with hc' | hc'
          · exact hnone1 c hc' hnone
          · rcases List.mem_singleton.mp hc' with rfl
            dsimp only at hnone
            exact (hsn hnone).2
        · intro hx; simp at hx
        · intro hall
          have := hall n (by omega)
          rw [he] at this
          cases this

/-- Running the page loop from an invariant state keeps the invariant. -/
theorem splitGo_inv (ps : List PageEntry) :
    ∀ (rest : List PageEntry) (n : Nat) (st : SplitSt), ps.drop n = rest →
      SInv ps n st → SInv ps (n + rest.length) (splitGo st n rest) := by
  intro rest
  induction rest with
  | nil =>
    intro n st _ h
    simpa [splitGo] using h
  | cons e rest' ih =>
    intro n st hdrop h
    have he : ps[n]? = some e := by
      have h0 := List.getElem?_drop ps n 0
      rw [hdrop] at h0
      simpa using h0.symm
    have hdrop' : ps.drop (n + 1) = rest' := by
      rw [← List.tail_drop, hdrop]
      rfl
    have h2 := ih (n + 1) (stepPage n e st) hdrop' (SInv.step he h)
    have harith : (n + 1) + rest'.length = n + (e :: rest').length := by
      simp [List.length_cons]
      omega
    rw [harith] at h2
    exact h2

/-- The state reached after scanning the whole document satisfies the
invariant at `ps.length`. -/
theorem sinv_final (ps : List PageEntry) : SInv ps ps.length (finalSt ps) := by
  have h := splitGo_inv ps ps 0 initSt (by simp) (sinv_init ps)
  simpa [finalSt] using h

/-- `closeFinal` when no chapter is open. -/
theorem closeFinal_nil (len : Nat) (st : SplitSt) (h : st.current_chapter = []) :
    closeFinal len st = st.chapters := by
  simp [closeFinal, h]

/-- `closeFinal` when a chapter is open. -/
theorem closeFinal_cons (len : Nat) (st : SplitSt) (h : st.current_chapter ≠ []) :
    closeFinal len st = st.chapters ++
      [⟨st.current_title, st.current_start, (len : Int) - 1, st.current_chapter⟩] := by
  simp [closeFinal, List.isEmpty_iff, h]

/-- Every chapter of the output is either a chapter closed during the scan
or the final close of the still-open chapter. -/
theorem mem_split {ps : List PageEntry} {c : Chapter} (hc : c ∈ split_chapters ps) :
    c ∈ (finalSt ps).chapters ∨
      ((finalSt ps).current_chapter ≠ [] ∧
        c = ⟨(finalSt ps).current_title, (finalSt ps).current_start,
             (ps.length : Int) - 1, (finalSt ps).current_chapter⟩) := by
  by_cases h : (finalSt ps).current_chapter = []
  · rw [split_chapters, closeFinal_nil _ _ h] at hc
    exact Or.inl hc
  · rw [split_chapters, closeFinal_cons _ _ h] at hc
    rcases List.mem_append.mp hc with h' | h'
    · exact Or.inl h'
    · exact Or.inr ⟨h, List.mem_singleton.mp h'⟩

/-- Chapters closed during the scan all appear in the output. -/
theorem chapters_sub_split {ps : List PageEntry} {c : Chapter}
    (hc : c ∈ (finalSt ps).chapters) : c ∈ split_chapters ps := by
  by_cases h : (finalSt ps).current_chapter = []
  · rw [split_chapters, closeFinal_nil _ _ h]
    exact hc
  · rw [split_chapters, closeFinal_cons _ _ h]
    exact List.mem_append_left _ hc

/-- Every chapter of the output whose start page is defined starts no later
than it ends. -/
theorem out_le (ps : List PageEntry) :
    ∀ c ∈ split_chapters ps, ∀ s, c.startPage = some s → (s : Int) ≤ c.endPage := by
  intro c hc s hs
  have inv := sinv_final ps
  rcases mem_split hc with h | ⟨_, rfl⟩
  · exact inv.hle c h s hs
  · dsimp only at hs ⊢
    have := (inv.hs s hs).1
    omega

/-- The chapters of the output are chained: each consecutive pair has a
defined later start beyond the earlier end. -/
theorem out_chain (ps : List PageEntry) : List.Chain' chRel (split_chapters ps) := by
  have inv := sinv_final ps
  by_cases h : (finalSt ps).current_chapter = []
  · rw [split_chapters, closeFinal_nil _ _ h]
    exact inv.hchain
  · rw [split_chapters, closeFinal_cons _ _ h]
    refine List.chain'_append.mpr ⟨inv.hchain, List.chain'_singleton _, ?_⟩
    intro x hx y hy
    simp only [List.head?_cons, Option.mem_def, Option.some_inj] at hy
    subst hy
    cases hsta : (finalSt ps).current_start with
    | none =>
      have h0 := (inv.hsn hsta).1
      rw [h0] at hx
      simp at hx
    | some s =>
      exact ⟨s, rfl, inv.hlast s hsta x (Option.mem_def.mp hx)⟩

/-- Every page entry recorded in any output chapter comes from the string
page at its index, and lies at or after the chapter's start page. -/
theorem out_pages (ps : List PageEntry) :
    ∀ c ∈ split_chapters ps, ∀ p ∈ c.pages,
      ps[p.1]? = some (PageEntry.str p.2) ∧ ∀ s, c.startPage = some s → s ≤ p.1 := by
  intro c hc p hp
  have inv := sinv_final ps
  rcases mem_split hc with h | ⟨_, rfl⟩
  · exact inv.hpg c h p hp
  · dsimp only at hp ⊢
    obtain ⟨h1, _, h3⟩ := inv.hcc p hp
    exact ⟨h1, h3⟩

/-- A defined start page of an output chapter is a heading page, and the
chapter's title is the match's title. -/
theorem out_start_heading (ps : List PageEntry) :
    ∀ c ∈ split_chapters ps, ∀ s, c.startPage = some s →
      ∃ hm, headingOfPage ps s = some hm ∧ c.title = some (titleOf hm) := by
  intro c hc s hs
  have inv := sinv_final ps
  rcases mem_split hc with h | ⟨_, rfl⟩
  · exact inv.hchs c h s hs
  · dsimp only at hs ⊢
    obtain ⟨_, hm, h1, h2⟩ := inv.hs s hs
    exact ⟨hm, h1, h2⟩

/-- Every heading page of the document starts exactly one output chapter,
whose title is the title of that page's first match. -/
theorem out_bound (ps : List PageEntry) :
    ∀ j hm, headingOfPage ps j = some hm →
      ∃ c ∈ split_chapters ps, c.startPage = some j ∧ c.title = some (titleOf hm) := by
  intro j hm hj
  have hjlt : j < ps.length := by
    by_contra hge
    have h0 : ps[j]? = none := List.getElem?_eq_none (by omega)
    simp [headingOfPage, h0] at hj
  have inv := sinv_final ps
  rcases inv.hbound j hjlt hm hj with ⟨c, hc, h1, h2⟩ | ⟨h1, h2⟩
  · exact ⟨c, chapters_sub_split hc, h1, h2⟩
  · have hne : (finalSt ps).current_chapter ≠ [] := by
      intro h0
      have := (inv.hcc0 h0).2.2
      rw [this] at h1
      cases h1
    refine ⟨⟨(finalSt ps).current_title, (finalSt ps).current_start,
        (ps.length : Int) - 1, (finalSt ps).current_chapter⟩, ?_, h1, h2⟩
    rw [split_chapters, closeFinal_cons _ _ hne]
    exact List.mem_append_right _ (List.mem_singleton_self _)

/-- An output chapter without a start page also has no title. -/
theorem out_none_title (ps : List PageEntry) :
    ∀ c ∈ split_chapters ps, c.startPage = none → c.title = none := by
  intro c hc h0
  have inv := sinv_final ps
  rcases mem_split hc with h | ⟨_, rfl⟩
  · exact inv.hnone1 c h h0
  · dsimp only at h0 ⊢
    exact (inv.hsn h0).2

/-- The output is empty exactly when the document contains no string page. -/
theorem out_empty_iff (ps : List PageEntry) :
    split_chapters ps = [] ↔ ∀ e ∈ ps, e = PageEntry.nonStr := by
  have inv := sinv_final ps
  constructor
  · intro h e he
    obtain ⟨j, hj⟩ := List.mem_iff_getElem?.mp he
    have hjlt : j < ps.length := by
      rcases List.getElem?_eq_some_iff.mp hj with ⟨h1, _⟩
      exact h1
    have hccE : (finalSt ps).current_chapter = [] := by
      by_contra hne
      rw [split_chapters, closeFinal_cons _ _ hne] at h
      simp at h
    have := inv.hallnon hccE j hjlt
    rw [hj] at this
    exact Option.some_inj.mp this
  · intro hall
    have hccE : (finalSt ps).current_chapter = [] := by
      apply inv.hstr
      intro j hjlt
      have hmem : ps[j] ∈ ps := List.getElem_mem hjlt
      have := hall _ hmem
      rw [List.getElem?_eq_some_iff.mpr ⟨hjlt, this⟩]
    rw [split_chapters, closeFinal_nil _ _ hccE]
    exact (inv.hcc0 hccE).1

/-- Chapters with a defined start page are in bijection with heading pages:
the counts agree. -/
theorem out_count (ps : List PageEntry) :
    (split_chapters ps).countP (fun c => c.startPage.isSome)
      = ps.countP pageHasHeading := by
  have inv := sinv_final ps
  have hc := inv.hcount
  rw [List.take_length] at hc
  by_cases h : (finalSt ps).current_chapter = []
  · rw [split_chapters, closeFinal_nil _ _ h]
    have h0 := (inv.hcc0 h).2.2
    rw [h0] at hc
    simpa using hc
  · rw [split_chapters, closeFinal_cons _ _ h, List.countP_append]
    rw [← hc]
    simp [List.countP_cons]

/-- When some page is a string, the scan ends with an open chapter. -/
theorem cc_ne_of_str (ps : List PageEntry) (h : ∃ e ∈ ps, e ≠ PageEntry.nonStr) :
    (finalSt ps).current_chapter ≠ [] := by
  intro hE
  obtain ⟨e, he, hne⟩ := h
  obtain ⟨j, hj⟩ := List.mem_iff_getElem?.mp he
  have hjlt : j < ps.length := by
    rcases List.getElem?_eq_some_iff.mp hj with ⟨h1, _⟩
    exact h1
  have := (sinv_final ps).hallnon hE j hjlt
  rw [hj] at this
  exact hne (Option.some_inj.mp this)

/-- If page `k` of the list satisfies the heading predicate, the first
heading search starting at `i` succeeds at an index at most `i + k`. -/
theorem fhpGo_le : ∀ (l : List PageEntry) (i k : Nat) (e : PageEntry),
    l[k]? = some e → pageHasHeading e = true →
    ∃ f, fhpGo i l = some f ∧ f ≤ i + k := by
  intro l
  induction l with
  | nil => intro i k e h; simp at h
  | cons a l' ih =>
    intro i k e hk hh
    by_cases ha : pageHasHeading a
    · exact ⟨i, by simp [fhpGo, ha], Nat.le_add_right i k⟩
    · cases k with
      | zero =>
        rw [List.getElem?_cons_zero] at hk
        rcases Option.some_inj.mp hk with rfl
        rw [hh] at ha
        exact absurd rfl ha
      | succ k' =>
        rw [List.getElem?_cons_succ] at hk
        obtain ⟨f, hf, hle⟩ := ih (i + 1) k' e hk hh
        refine ⟨f, ?_, by omega⟩
        simp [fhpGo, ha]
        exact hf

/-- Any heading page is at or after the first heading page. -/
theorem firstHeading_le {ps : List PageEntry} {s : Nat} {hm : HeadingMatch}
    (h : headingOfPage ps s = some hm) :
    ∃ f, firstHeadingPage ps = some f ∧ f ≤ s := by
  cases hps : ps[s]? with
  | none => simp [headingOfPage, hps] at h
  | some e =>
    cases e with
    | nonStr => simp [headingOfPage, hps] at h
    | str t =>
      simp only [headingOfPage, hps] at h
      have hh : pageHasHeading (PageEntry.str t) = true := by
        simp [pageHasHeading, h]
      have := fhpGo_le ps 0 s _ hps hh
      simpa [firstHeadingPage] using this

/-- When the scan ends with an open chapter, the final close is the last
chapter of the output. -/
theorem out_last (ps : List PageEntry) (h : (finalSt ps).current_chapter ≠ []) :
    (split_chapters ps).getLast? = some ⟨(finalSt ps).current_title,
      (finalSt ps).current_start, (ps.length : Int) - 1, (finalSt ps).current_chapter⟩ := by
  rw [split_chapters, closeFinal_cons _ _ h]
  exact List.getLast?_concat _

/-- Indexing the enumerated aggregation. -/
theorem numberFrom_getElem? : ∀ (cs : List Chapter) (i k : Nat),
    (numberFrom i cs)[k]? = (cs[k]?).map fun c => aggregate (i + k) c := by
  intro cs
  induction cs with
  | nil => intro i k; simp [numberFrom]
  | cons c cs' ih =>
    intro i k
    cases k with
    | zero => simp [numberFrom]
    | succ k' =>
      have harith : i + 1 + k' = i + (k' + 1) := by omega
      simp [numberFrom, ih (i + 1) k', harith]

/-- The aggregation emits one record per chapter. -/
theorem numberFrom_length : ∀ (cs : List Chapter) (i : Nat),
    (numberFrom i cs).length = cs.length := by
  intro cs
  induction cs with
  | nil => intro i; rfl
  | cons c cs' ih => intro i; simp [numberFrom, ih (i + 1)]

/-! ### The claims -/

/-- C1, counterexample.  The claim says pages before the first detected
heading are excluded from every chapter and that with no heading the
result is empty.  On `["intro", "Chapter 1"]` the first heading is on page
1, yet the first output chapter contains page 0; and a pageful of plain
text yields a non-empty result. -/
theorem c1_counterexample :
    (firstHeadingPage [PageEntry.str "intro", PageEntry.str "Chapter 1"] = some 1 ∧
      ∃ c ∈ split_chapters [PageEntry.str "intro", PageEntry.str "Chapter 1"],
        ∃ p ∈ c.pages, p.1 < 1) ∧
    split_chapters [PageEntry.str "just some text"] ≠ [] := by
  refine ⟨⟨by decide, ?_⟩, by decide⟩
  exact ⟨⟨none, none, 0, [(0, "intro")]⟩, by decide, (0, "intro"), by decide, by decide⟩

/-- C1, amended: pages before the first heading are collected into a
leading title-less chapter with undefined start page rather than dropped;
every chapter with a defined start page holds only pages at or after the
first heading page; and the output is empty exactly when the input has no
string page. -/
theorem c1_amended_holds : ∀ ps : List PageEntry,
    (∀ c ∈ split_chapters ps, ∀ p ∈ c.pages,
      c.startPage = none ∨ ∃ f, firstHeadingPage ps = some f ∧ f ≤ p.1) ∧
    (∀ c ∈ split_chapters ps, c.startPage = none → c.title = none) ∧
    (split_chapters ps = [] ↔ ∀ e ∈ ps, e = PageEntry.nonStr) := by
  intro ps
  refine ⟨?_, out_none_title ps, out_empty_iff ps⟩
  intro c hc p hp
  cases hsp : c.startPage with
  | none => exact Or.inl rfl
  | some s =>
    right
    obtain ⟨hm, hh, _⟩ := out_start_heading ps c hc s hsp
    obtain ⟨f, hf, hfle⟩ := firstHeading_le hh
    have hsle := (out_pages ps c hc p hp).2 s hsp
    exact ⟨f, hf, by omega⟩

/-- Witness for C1's amended theorem at a concrete input. -/
theorem c1_amended_holds_witness :
    ((⟨some "Chapter 1", some 1, 1, [(1, "Chapter 1")]⟩ : Chapter) ∈
        split_chapters [PageEntry.str "intro", PageEntry.str "Chapter 1"]) ∧
    (((1 : Nat), "Chapter 1") ∈
        (⟨some "Chapter 1", some 1, 1, [(1, "Chapter 1")]⟩ : Chapter).pages) ∧
    ((⟨some "Chapter 1", some 1, 1, [(1, "Chapter 1")]⟩ : Chapter).startPage = none ∨
      ∃ f, firstHeadingPage [PageEntry.str "intro", PageEntry.str "Chapter 1"] = some f ∧
        f ≤ 1) :=
  ⟨by decide, by decide,
    (c1_amended_holds [PageEntry.str "intro", PageEntry.str "Chapter 1"]).1
      ⟨some "Chapter 1", some 1, 1, [(1, "Chapter 1")]⟩ (by decide)
      ((1 : Nat), "Chapter 1") (by decide)⟩

/-- C2, counterexample.  The claim says every chapter has
`startPage ≤ endPage`; the leading pseudo-chapter collecting front matter
has `startPage = None`, so not every chapter has a start page at all. -/
theorem c2_counterexample :
    ¬ ∀ c ∈ split_chapters [PageEntry.str "front matter", PageEntry.str "Chapter 1\nBody"],
        ∃ s, c.startPage = some s ∧ (s : Int) ≤ c.endPage := by
  intro hall
  have hmem : (⟨none, none, 0, [(0, "front matter")]⟩ : Chapter) ∈
      split_chapters [PageEntry.str "front matter", PageEntry.str "Chapter 1\nBody"] := by
    decide
  obtain ⟨s, hs, _⟩ := hall _ hmem
  exact Option.noConfusion hs

/-- C2, amended: the output chapters are chained — each consecutive pair
has a defined later start page strictly beyond the earlier end page, so
the ranges are ascending and pairwise non-overlapping — and every chapter
whose start page is defined (all but a possible leading title-less
pseudo-chapter) satisfies `startPage ≤ endPage`. -/
theorem c2_amended_holds : ∀ ps : List PageEntry,
    List.Chain' (fun a b => ∃ s : Nat, b.startPage = some s ∧ a.endPage < (s : Int))
      (split_chapters ps) ∧
    ∀ c ∈ split_chapters ps, ∀ s, c.startPage = some s → (s : Int) ≤ c.endPage :=
  fun ps => ⟨out_chain ps, out_le ps⟩

/-- Witness for C2's amended theorem at a concrete input. -/
theorem c2_amended_holds_witness :
    ((⟨some "Chapter 1", some 1, 1, [(1, "Chapter 1\nBody")]⟩ : Chapter) ∈
        split_chapters [PageEntry.str "front matter", PageEntry.str "Chapter 1\nBody"]) ∧
    ((1 : Int) ≤ (1 : Int)) :=
  ⟨by decide,
    (c2_amended_holds [PageEntry.str "front matter", PageEntry.str "Chapter 1\nBody"]).2
      ⟨some "Chapter 1", some 1, 1, [(1, "Chapter 1\nBody")]⟩ (by decide) 1 (by decide)⟩

/-- C3, counterexample.  The claim says a non-string page is treated as an
empty-string page and still appended to the open chapter's page list; in
fact the `continue` skips it, so no `(1, "")` entry appears anywhere. -/
theorem c3_counterexample :
    ¬ ∃ c ∈ split_chapters [PageEntry.str "Chapter 1", PageEntry.nonStr],
        ((1 : Nat), "") ∈ c.pages := by
  decide

/-- C3, amended: a non-string entry contributes no heading match, but it is
skipped outright rather than appended: every page entry recorded in any
chapter's page list comes from a string page of the input. -/
theorem c3_amended_holds :
    pageHasHeading PageEntry.nonStr = false ∧
    ∀ (ps : List PageEntry), ∀ c ∈ split_chapters ps, ∀ p ∈ c.pages,
      ps[p.1]? = some (PageEntry.str p.2) :=
  ⟨rfl, fun ps c hc p hp => (out_pages ps c hc p hp).1⟩

/-- Witness for C3's amended theorem at a concrete input. -/
theorem c3_amended_holds_witness :
    ((⟨some "Chapter 1", some 0, 1, [(0, "Chapter 1")]⟩ : Chapter) ∈
        split_chapters [PageEntry.str "Chapter 1", PageEntry.nonStr]) ∧
    ([PageEntry.str "Chapter 1", PageEntry.nonStr][(0 : Nat)]? =
        some (PageEntry.str "Chapter 1")) :=
  ⟨by decide,
    c3_amended_holds.2 [PageEntry.str "Chapter 1", PageEntry.nonStr]
      ⟨some "Chapter 1", some 0, 1, [(0, "Chapter 1")]⟩ (by decide)
      ((0 : Nat), "Chapter 1") (by decide)⟩

/-- C4: the three-page example yields exactly the two stated chapters, and
in general, whenever the input contains a string page (so the scan ends
with an open chapter), the last output chapter is closed with end page
`len(pages) - 1`. -/
theorem c4_last_close :
    split_chapters [PageEntry.str "Chapter One\nText A", PageEntry.str "More text",
        PageEntry.str "Chapter Two\nText B"] =
      [⟨some "Chapter One", some 0, 1, [(0, "Chapter One\nText A"), (1, "More text")]⟩,
       ⟨some "Chapter Two", some 2, 2, [(2, "Chapter Two\nText B")]⟩] ∧
    ∀ ps : List PageEntry, (∃ e ∈ ps, e ≠ PageEntry.nonStr) →
      ∃ c, (split_chapters ps).getLast? = some c ∧ c.endPage = (ps.length : Int) - 1 := by
  refine ⟨by decide, ?_⟩
  intro ps hex
  exact ⟨_, out_last ps (cc_ne_of_str ps hex), rfl⟩

/-- Witness for C4 at a concrete input. -/
theorem c4_last_close_witness :
    (∃ e ∈ [PageEntry.str "Solo page"], e ≠ PageEntry.nonStr) ∧
    ∃ c, (split_chapters [PageEntry.str "Solo page"]).getLast? = some c ∧
      c.endPage = ([PageEntry.str "Solo page"].length : Int) - 1 :=
  ⟨by decide, c4_last_close.2 [PageEntry.str "Solo page"] (by decide)⟩

/-- C5: each page detects at most one boundary — the number of chapters
with a defined start page equals the number of pages on which a heading is
detected, and a page whose text contains several heading-like lines (here
a chapter line, a prologue line and another chapter line) opens exactly
one chapter, titled from its first matching line. -/
theorem c5_one_boundary_per_page :
    (∀ ps : List PageEntry,
      (split_chapters ps).countP (fun c => c.startPage.isSome)
        = ps.countP pageHasHeading) ∧
    split_chapters [PageEntry.str "Chapter 1\nPrologue\nChapter 2"] =
      [⟨some "Chapter 1", some 0, 0, [(0, "Chapter 1\nPrologue\nChapter 2")]⟩] :=
  ⟨out_count, by decide⟩

/-- C6: a line lowercasing to `"chapter 1"` classifies as a chapter heading
carrying the raw line; a line lowercasing to `"prologue"` classifies as the
named section with the fixed label `"Prologue"`; the chapter pattern is
tested first and wins whenever it matches; and any page whose first
matching line produces match `hm` opens a chapter starting at that page
titled `titleOf hm`. -/
theorem c6_classifier_order :
    (∀ s : String, lowerStr s = "chapter 1" →
        classifyLine s = some (HeadingMatch.chapterHeading s)) ∧
    (∀ s : String, lowerStr s = "prologue" →
        classifyLine s = some (HeadingMatch.namedSection "Prologue")) ∧
    (∀ s : String, chapterHeadMatch (lowerStr s).data = true →
        classifyLine s = some (HeadingMatch.chapterHeading s)) ∧
    (∀ (ps : List PageEntry) (i : Nat) (t : String) (hm : HeadingMatch),
        ps[i]? = some (PageEntry.str t) → pageFirstMatch t = some hm →
        ∃ c ∈ split_chapters ps, c.startPage = some i ∧ c.title = some (titleOf hm)) := by
  refine ⟨?_, ?_, ?_, ?_⟩
  · intro s hl
    have hd : (lowerStr s).data = "chapter 1".data := by rw [hl]
    have hcm : chapterHeadMatch (lowerStr s).data = true := by rw [hd]; decide
    simp [classifyLine, hcm]
  · intro s hl
    have hd : (lowerStr s).data = "prologue".data := by rw [hl]
    have hcm : chapterHeadMatch (lowerStr s).data = false := by rw [hd]; decide
    have hsf : sectionFind (lowerStr s).data = some "Prologue" := by rw [hd]; decide
    simp [classifyLine, hcm, hsf]
  · intro s hcm
    simp [classifyLine, hcm]
  · intro ps i t hm hpsi hpmt
    have hh : headingOfPage ps i = some hm := by simp [headingOfPage, hpsi, hpmt]
    exact out_bound ps i hm hh

/-- Witness for C6 at concrete inputs. -/
theorem c6_classifier_order_witness :
    (lowerStr "ChApTeR 1" = "chapter 1" ∧
      classifyLine "ChApTeR 1" = some (HeadingMatch.chapterHeading "ChApTeR 1")) ∧
    (lowerStr "pRoLoGuE" = "prologue" ∧
      classifyLine "pRoLoGuE" = some (HeadingMatch.namedSection "Prologue")) ∧
    ([PageEntry.str "Prologue\nText"][(0 : Nat)]? = some (PageEntry.str "Prologue\nText") ∧
      pageFirstMatch "Prologue\nText" = some (HeadingMatch.namedSection "Prologue") ∧
      ∃ c ∈ split_chapters [PageEntry.str "Prologue\nText"],
        c.startPage = some 0 ∧
          c.title = some (titleOf (HeadingMatch.namedSection "Prologue"))) :=
  ⟨⟨by decide, c6_classifier_order.1 "ChApTeR 1" (by decide)⟩,
   ⟨by decide, c6_classifier_order.2.1 "pRoLoGuE" (by decide)⟩,
   by decide, by decide,
   c6_classifier_order.2.2.2 [PageEntry.str "Prologue\nText"] 0 "Prologue\nText"
     (HeadingMatch.namedSection "Prologue") (by decide) (by decide)⟩

/-- C7: `count_words` counts word-boundary tokens (`"Hello, world!"` has 2,
`""` has 0), and every successfully processed chapter — one whose start
page is defined, so the `try` block does not raise — is reported with
1-based start and end pages, `page_count = endPage - startPage + 1` and the
word count of its concatenated page texts. -/
theorem c7_stats :
    count_words "Hello, world!" = 2 ∧ count_words "" = 0 ∧
    ∀ (ps : List PageEntry) (k : Nat) (c : Chapter) (s : Nat),
      (split_chapters ps)[k]? = some c → c.startPage = some s →
      (analyze_stats ps).2[k]? = some ⟨k + 1, c.title, .num ((s : Int) + 1),
        .num (c.endPage + 1), .num (c.endPage - (s : Int) + 1),
        count_words (joinTexts c.pages)⟩ := by
  refine ⟨by decide, by decide, ?_⟩
  intro ps k c s hk hs
  have h1 : (analyze_stats ps).2 = numberFrom 1 (split_chapters ps) := rfl
  rw [h1, numberFrom_getElem?, hk]
  simp [aggregate, hs, Nat.add_comm]

/-- Witness for C7 at a concrete input. -/
theorem c7_stats_witness :
    ((split_chapters [PageEntry.str "Chapter 1\nHi"])[(0 : Nat)]? =
        some ⟨some "Chapter 1", some 0, 0, [(0, "Chapter 1\nHi")]⟩) ∧
    ((analyze_stats [PageEntry.str "Chapter 1\nHi"]).2[(0 : Nat)]? =
        some ⟨1, some "Chapter 1", .num 1, .num 1, .num 1, 3⟩) :=
  ⟨by decide,
    c7_stats.2.2 [PageEntry.str "Chapter 1\nHi"] 0
      ⟨some "Chapter 1", some 0, 0, [(0, "Chapter 1\nHi")]⟩ 0 (by decide) rfl⟩

/-- C8: the aggregation loop never aborts — it emits exactly one record per
segmented chapter, in order; a chapter whose processing raises (undefined
start page, Python `TypeError` caught by the `except`) is still present at
its 1-based position with `"?"` page fields and word count 0, and every
chapter, including those after a failure, gets its record. -/
theorem c8_partial_failure :
    ∀ ps : List PageEntry,
      (analyze_stats ps).1 = (split_chapters ps).length ∧
      (analyze_stats ps).2.length = (split_chapters ps).length ∧
      ∀ (k : Nat) (c : Chapter), (split_chapters ps)[k]? = some c →
        (analyze_stats ps).2[k]? = some (aggregate (k + 1) c) ∧
        (c.startPage = none →
          (analyze_stats ps).2[k]? = some ⟨k + 1, c.title, .q, .q, .q, 0⟩) := by
  intro ps
  have h1 : (analyze_stats ps).2 = numberFrom 1 (split_chapters ps) := rfl
  refine ⟨?_, ?_, ?_⟩
  · show (numberFrom 1 (split_chapters ps)).length = _
    exact numberFrom_length _ 1
  · rw [h1]
    exact numberFrom_length _ 1
  · intro k c hk
    constructor
    · rw [h1, numberFrom_getElem?, hk]
      simp [Nat.add_comm]
    · intro hnone
      rw [h1, numberFrom_getElem?, hk]
      simp [aggregate, hnone, Nat.add_comm]

/-- Witness for C8 at a concrete input with a failing first chapter. -/
theorem c8_partial_failure_witness :
    ((split_chapters [PageEntry.str "front", PageEntry.str "Chapter 1\nHi"])[(0 : Nat)]? =
        some ⟨none, none, 0, [(0, "front")]⟩) ∧
    ((analyze_stats [PageEntry.str "front", PageEntry.str "Chapter 1\nHi"]).2[(0 : Nat)]? =
        some ⟨1, none, .q, .q, .q, 0⟩) :=
  ⟨by decide,
    ((c8_partial_failure [PageEntry.str "front", PageEntry.str "Chapter 1\nHi"]).2.2 0
      ⟨none, none, 0, [(0, "front")]⟩ (by decide)).2 rfl⟩

/-- C9: on the chapter tuples produced by `split_chapters`, the resolver
records nothing at all — `chapter[0]` is the chapter's title, which is
never a tuple, so the `isinstance` guard sends every iteration to
`continue` and the returned mapping is always empty.  Shown at the concrete
failing input and in general. -/
theorem c9_resolver_skips_all :
    (get_chapter_start_pages
        ((split_chapters [PageEntry.str "Chapter 1\nHello"]).map Chapter.asResolverArg)
        ["Chapter 1\nHello"] = .ok []) ∧
    ∀ (cs : List Chapter) (pages : List String),
      get_chapter_start_pages (cs.map Chapter.asResolverArg) pages = .ok [] := by
  refine ⟨rfl, ?_⟩
  intro cs pages
  induction cs with
  | nil => rfl
  | cons c cs' ih => exact ih

/-- C10: a hand-built chapter list whose first entry is a page tuple with
whitespace-only text makes the resolver raise an uncaught `IndexError` at
`strip().splitlines()[0]`, aborting the whole run — the second, perfectly
resolvable chapter is never processed. -/
theorem c10_resolver_index_error :
    get_chapter_start_pages [RChapter.headTup 0 " \n ", RChapter.headTup 0 "Hello"]
      ["HELLO"] = .error .indexError := rfl
